import Mathlib

/-!
Verification development for the Nasarawa inventory ETL
(`transformation.py`).  The definitions below are a shallow embedding of
the data-processing core of that script: column standardization, date
standardization, the product-specific release correction, and the
monthly summary with running balances.  Numeric cell values are modelled
as rationals (`Rat`); pandas `NaN` entries inside a numeric column are
modelled as `Option.none` where the distinction matters and as the
value `0` where pandas' skip-NaN summation makes that equivalent.
Calls into the pandas library itself (the lenient "mixed" date parser)
are modelled as function parameters, since their code is external to
the repository.
-/

namespace NasarawaETL

/-- Numeric cell values of the ledgers (pandas floats, modelled exactly). -/
abbrev Q := Rat

/-! ### Character and digit utilities -/

/-- ASCII digit test, as used by the date/number parsers. -/
def isDigitC (c : Char) : Bool := 48 ≤ c.toNat && c.toNat ≤ 57

/-- Numeric value of an ASCII digit character. -/
def digitVal (c : Char) : Nat := c.toNat - 48

/-- Digit character for a value below ten. -/
def digitChar : Nat → Char
  | 0 => '0' | 1 => '1' | 2 => '2' | 3 => '3' | 4 => '4'
  | 5 => '5' | 6 => '6' | 7 => '7' | 8 => '8' | 9 => '9'
  | _ => '*'

/-- Value of a digit string read left to right. -/
def digitsVal (l : List Char) : Nat := l.foldl (fun acc c => acc * 10 + digitVal c) 0

/-- ASCII lower-casing of one character.  The sheets' headers and cells are
ASCII, so this matches Python's `str.lower` on every value that occurs. -/
def lowerC (c : Char) : Char :=
  if 65 ≤ c.toNat ∧ c.toNat ≤ 90 then Char.ofNat (c.toNat + 32) else c

/-- Lower-casing of a string. -/
def toLowerS (s : String) : String := String.mk (s.data.map lowerC)

/-- Whitespace test used by the strip operations. -/
def isSpaceC (c : Char) : Bool := c = ' ' || c = '\t' || c = '\n' || c = '\r'

/-- Strip of leading and trailing whitespace (Python `str.strip`). -/
def trimS (s : String) : String :=
  String.mk (((s.data.dropWhile isSpaceC).reverse.dropWhile isSpaceC).reverse)

/-- Four-digit zero-padded rendering (strftime `%Y` for in-range years). -/
def pad4 (y : Nat) : List Char :=
  [digitChar (y / 1000 % 10), digitChar (y / 100 % 10), digitChar (y / 10 % 10), digitChar (y % 10)]

/-- Two-digit zero-padded rendering (strftime `%m`). -/
def pad2 (m : Nat) : List Char := [digitChar (m / 10 % 10), digitChar (m % 10)]

/-- Split a character list on runs of spaces (strptime treats a space in the
format as one-or-more whitespace); `acc` holds the current token reversed. -/
def splitWsAux : List Char → List Char → List (List Char)
  | acc, [] => if acc.isEmpty then [] else [acc.reverse]
  | acc, c :: rest =>
    if c = ' ' then
      if acc.isEmpty then splitWsAux [] rest else acc.reverse :: splitWsAux [] rest
    else splitWsAux (c :: acc) rest

/-- Split a character list on runs of spaces. -/
def splitWs (l : List Char) : List (List Char) := splitWsAux [] l

/-- Split on every occurrence of a separator character, keeping empty parts. -/
def splitOnCharAux (sep : Char) : List Char → List Char → List (List Char)
  | acc, [] => [acc.reverse]
  | acc, c :: rest =>
    if c = sep then acc.reverse :: splitOnCharAux sep [] rest
    else splitOnCharAux sep (c :: acc) rest

/-- Split on a separator character. -/
def splitOnChar (sep : Char) (l : List Char) : List (List Char) := splitOnCharAux sep [] l

/-! ### Dates -/

/-- Parsed calendar date, the model of a pandas `Timestamp`'s date part. -/
structure PDate where
  year : Nat
  month : Nat
  day : Nat
deriving DecidableEq, Repr

/-- Month abbreviations as produced by strftime `%b` (title case). -/
def MONTH_ABBREVS : List String :=
  ["Jan", "Feb", "Mar", "Apr", "May", "Jun", "Jul", "Aug", "Sep", "Oct", "Nov", "Dec"]

/-- Case-insensitive month abbreviation lookup (strptime `%b`). -/
def monthFromAbbrev (ms : List Char) : Option Nat :=
  match String.mk (ms.map lowerC) with
  | "jan" => some 1 | "feb" => some 2 | "mar" => some 3 | "apr" => some 4
  | "may" => some 5 | "jun" => some 6 | "jul" => some 7 | "aug" => some 8
  | "sep" => some 9 | "oct" => some 10 | "nov" => some 11 | "dec" => some 12
  | _ => none

/-- Leap-year test of the Gregorian calendar. -/
def isLeap (y : Nat) : Bool := y % 4 = 0 && (y % 100 ≠ 0 || y % 400 = 0)

/-- Days in a month, used by strptime's calendar validation. -/
def daysInMonth (y m : Nat) : Nat :=
  match m with
  | 1 => 31 | 2 => if isLeap y then 29 else 28 | 3 => 31 | 4 => 30
  | 5 => 31 | 6 => 30 | 7 => 31 | 8 => 31
  | 9 => 30 | 10 => 31 | 11 => 30 | 12 => 31
  | _ => 0

/-- Build a date after validating it, as `datetime` does (month is validated
by the callers, which only produce months in 1..12). -/
def mkDate (y m d : Nat) : Option PDate :=
  if 1 ≤ y ∧ y ≤ 9999 ∧ 1 ≤ d ∧ d ≤ daysInMonth y m then some ⟨y, m, d⟩ else none

/-- Digit token of one or two characters (strptime `%d`, `%m`, `%y`). -/
def parse2d (tok : List Char) : Option Nat :=
  if tok ≠ [] ∧ tok.length ≤ 2 ∧ tok.all isDigitC then some (digitsVal tok) else none

/-- Digit token of one to four characters (strptime `%Y`). -/
def parse4y (tok : List Char) : Option Nat :=
  if tok ≠ [] ∧ tok.length ≤ 4 ∧ tok.all isDigitC then some (digitsVal tok) else none

/-- Model of `datetime.strptime` with format `%d %b %Y` (day month-name year). -/
def parseFmtDayMonthnameYear (s : String) : Option PDate :=
  match splitWs s.data with
  | [dt, mt, yt] => do
    let d ← parse2d dt
    let m ← monthFromAbbrev mt
    let y ← parse4y yt
    mkDate y m d
  | _ => none

/-- Model of `datetime.strptime` with format `%d/%m/%y` (two-digit year;
Python maps 0..68 to 2000..2068 and 69..99 to 1969..1999). -/
def parseFmtDaySlashMonthSlashYy (s : String) : Option PDate :=
  match splitOnChar '/' s.data with
  | [dt, mt, yt] => do
    let d ← parse2d dt
    let m ← parse2d mt
    let y2 ← parse2d yt
    if 1 ≤ m ∧ m ≤ 12 then mkDate (if y2 ≤ 68 then 2000 + y2 else 1900 + y2) m d else none
  | _ => none

/-- Model of `datetime.strptime` with format `%d-%b-%Y`. -/
def parseFmtDayDashMonthabbrevDashYear (s : String) : Option PDate :=
  match splitOnChar '-' s.data with
  | [dt, mt, yt] => do
    let d ← parse2d dt
    let m ← monthFromAbbrev mt
    let y ← parse4y yt
    mkDate y m d
  | _ => none

/-- Ordered date formats tried by `standardize_dates` (source constant
`DATE_FORMATS`). -/
def DATE_FORMATS : List String := ["%d %b %Y", "%d/%m/%y", "%d-%b-%Y"]

/-- Dispatch a format string to its strptime model. -/
def strptime1 (fmt : String) (s : String) : Option PDate :=
  if fmt = "%d %b %Y" then parseFmtDayMonthnameYear s
  else if fmt = "%d/%m/%y" then parseFmtDaySlashMonthSlashYy s
  else if fmt = "%d-%b-%Y" then parseFmtDayDashMonthabbrevDashYear s
  else none

/-- Model of `pd.to_datetime(column, format=fmt)`: the whole column parses,
or the call raises (`none`). -/
def to_datetime_format (fmt : String) : List String → Option (List PDate)
  | [] => some []
  | c :: cs =>
    match strptime1 fmt c with
    | none => none
    | some d =>
      match to_datetime_format fmt cs with
      | none => none
      | some ds => some (d :: ds)

/-- Loop of `standardize_dates` over `DATE_FORMATS`: try each format on the
whole column, first success breaks out (source lines 101-111). -/
def tryFormatsLoop : List String → List String → Option (List PDate)
  | [], _ => none
  | f :: fs, cells =>
    match to_datetime_format f cells with
    | some ds => some ds
    | none => tryFormatsLoop fs cells

/-- Row-by-row application of the lenient mixed-format parser, the model of
`pd.to_datetime(column, format='mixed', dayfirst=True)`; the parser itself
is a parameter because it is pandas-internal code.  A cell it cannot
resolve makes the whole call raise (`none`). -/
def traverseMixed (mixed : String → Option PDate) : List String → Option (List PDate)
  | [] => some []
  | c :: cs =>
    match mixed c with
    | none => none
    | some d =>
      match traverseMixed mixed cs with
      | none => none
      | some ds => some (d :: ds)

/-- Date-column logic of `standardize_dates` (source lines 101-120): strict
formats in order, then the mixed fallback, then a hard error if anything
is still unresolved.  Both failure paths of the source (the mixed parser
raising, and the residual-NaT check) surface as the same
`DataProcessingError`, modelled as `Except.error`. -/
def standardize_dates_col (mixed : String → Option PDate) (cells : List String) :
    Except String (List PDate) :=
  match tryFormatsLoop DATE_FORMATS cells with
  | some ds => .ok ds
  | none =>
    match traverseMixed mixed cells with
    | some ds => .ok ds
    | none => .error "Failed to parse dates"

/-- Declarative restatement of the date-parsing strategy, following the
spec's words: the first exact format that parses the entire column wins;
if none does, the lenient parser is applied row by row; if any row is
still unresolvable the whole operation errors out. -/
def spec_date_column (mixed : String → Option PDate) (cells : List String) :
    Except String (List PDate) :=
  match DATE_FORMATS.find? (fun f => (to_datetime_format f cells).isSome) with
  | some f => .ok ((to_datetime_format f cells).getD [])
  | none =>
    if cells.all (fun c => (mixed c).isSome) then
      .ok (cells.map (fun c => (mixed c).getD ⟨1970, 1, 1⟩))
    else .error "Failed to parse dates"

/-! ### Cell standardization and numeric coercion (`standardize_dataframe`) -/

/-- Comma removal applied before numeric coercion
(`.str.replace(',', '')`, source line 84). -/
def removeCommas (s : String) : String := String.mk (s.data.filter (fun c => c ≠ ','))

/-- Cell-level cleaning applied to every column
(`.astype(str).str.strip().str.lower()`, source line 82). -/
def cleanCell (s : String) : String := toLowerS (trimS s)

/-- Model of the numeric parser inside `pd.to_numeric` for plain decimal
literals: optional sign, then digits with at most one decimal point and at
least one digit overall.  The special float spellings (`nan`, `inf`,
exponents) do not occur in these ledgers and are outside the modelled
grammar. -/
def parseDecS (s : String) : Option Q :=
  let core : List Char → Option Q := fun l =>
    match splitOnChar '.' l with
    | [ip] =>
      if ip ≠ [] ∧ ip.all isDigitC then some ((digitsVal ip : Nat) : Q) else none
    | [ip, fp] =>
      if (ip ≠ [] ∨ fp ≠ []) ∧ ip.all isDigitC ∧ fp.all isDigitC then
        some (((digitsVal ip : Nat) : Q) + ((digitsVal fp : Nat) : Q) / ((10 : Q) ^ fp.length))
      else none
    | _ => none
  match s.data with
  | '+' :: rest => core rest
  | '-' :: rest => (core rest).map (fun q => -q)
  | rest => core rest

/-- One cell under `pd.to_numeric`: an empty string becomes `NaN`
(pandas `maybe_convert_numeric` with `convert_empty=True`), a parseable
literal becomes its value, and anything else raises for the whole column
(outer `none`). -/
def to_numeric_cell (c : String) : Option (Option Q) :=
  if c = "" then some none else (parseDecS c).map some

/-- Model of `pd.to_numeric` on a whole column: all-or-nothing. -/
def to_numeric_col : List String → Option (List (Option Q))
  | [] => some []
  | c :: cs =>
    match to_numeric_cell c with
    | none => none
    | some v =>
      match to_numeric_col cs with
      | none => none
      | some vs => some (v :: vs)

/-- Column payload after `standardize_dataframe`: either textual cells, or a
numeric column in which `none` is a `NaN` entry. -/
inductive ColVals where
  | text : List String → ColVals
  | nums : List (Option Q) → ColVals
deriving DecidableEq, Repr

/-- Per-column body of `standardize_dataframe` (source lines 81-87): clean
every cell, then attempt numeric coercion of the comma-stripped values;
on failure the column keeps the cleaned textual values (with commas). -/
def standardizeColumn (cells : List String) : ColVals :=
  let s := cells.map cleanCell
  match to_numeric_col (s.map removeCommas) with
  | some ns => .nums ns
  | none => .text s

/-- Column-name canonicalization (source lines 72-75): lower-case, strip,
then replace spaces and hyphens with underscores. -/
def canonName (n : String) : String :=
  String.mk ((trimS (toLowerS n)).data.map
    (fun c => if c = ' ' then '_' else if c = '-' then '_' else c))

/-- Model of `standardize_dataframe` on an ordered column list: name
canonicalization, the `weight_in_kg` → `weight` relabel, then per-column
cleaning and coercion.  The pandas `rename` used by the source relabels
columns and never merges or overwrites duplicates. -/
def standardize_dataframe_table (t : List (String × List String)) :
    List (String × ColVals) :=
  let renamed := t.map (fun col =>
    (let n := canonName col.1; if n = "weight_in_kg" then "weight" else n, col.2))
  renamed.map (fun col => (col.1, standardizeColumn col.2))

/-- Inflow-only relabel applied by `process_sheets_data` after
standardization (source lines 299-301): `weight_at_delivery` → `weight`. -/
def rename_weight_at_delivery (t : List (String × ColVals)) : List (String × ColVals) :=
  t.map (fun col => (if col.1 = "weight_at_delivery" then "weight" else col.1, col.2))

/-! ### Ledger records

The claims about `standardize_dates`, the gizzard correction and
`create_summary_df` concern ledgers that have come out of
`standardize_dataframe` with the required columns in place: a textual
`date` column, a textual product column, and numeric `quantity` and
`weight` columns.  Records are the row view of such frames.  A pandas
`NaN` inside `quantity`/`weight` is skipped by `groupby(...).sum()`,
i.e. it contributes `0`; it is therefore modelled as the value `0`. -/

/-- Row of the standardized stock-inflow ledger before date parsing. -/
structure InflowRow where
  date : String
  product_type : String
  quantity : Q
  weight : Q
deriving DecidableEq, Repr

/-- Row of the standardized release ledger before date parsing. -/
structure ReleaseRow where
  date : String
  product : String
  quantity : Q
  weight : Q
deriving DecidableEq, Repr

/-- Month column derivation, strftime `%b` lower-cased (source line 122). -/
def monthAbbrevLower (m : Nat) : String := toLowerS (MONTH_ABBREVS.getD (m - 1) "")

/-- Internal bucket key rendering, strftime `%Y-%b` (source line 123),
e.g. `2024-Jan`. -/
def renderYearMonthAbbrev (y m : Nat) : String :=
  String.mk (pad4 y ++ '-' :: (MONTH_ABBREVS.getD (m - 1) "").data)

/-- Stock-inflow row after `standardize_dates`. -/
structure InflowDated where
  date : PDate
  product_type : String
  quantity : Q
  weight : Q
  month : String
  year_month : String
deriving DecidableEq, Repr

/-- Release row after `standardize_dates`. -/
structure ReleaseDated where
  date : PDate
  product : String
  quantity : Q
  weight : Q
  month : String
  year_month : String
deriving DecidableEq, Repr

/-- Model of `standardize_dates` on the inflow ledger: an empty frame is
returned unchanged — without the `month`/`year_month` columns, encoded as
`none` (source lines 94-95); otherwise the date column is parsed and the
two derived columns are added. -/
def standardize_dates_inflow (mixed : String → Option PDate) (rows : List InflowRow) :
    Except String (Option (List InflowDated)) :=
  if rows.isEmpty then .ok none
  else
    match standardize_dates_col mixed (rows.map (·.date)) with
    | .error e => .error e
    | .ok ds => .ok (some (List.zipWith (fun (r : InflowRow) (d : PDate) =>
        { date := d, product_type := r.product_type, quantity := r.quantity,
          weight := r.weight, month := monthAbbrevLower d.month,
          year_month := renderYearMonthAbbrev d.year d.month }) rows ds))

/-- Model of `standardize_dates` on the release ledger. -/
def standardize_dates_release (mixed : String → Option PDate) (rows : List ReleaseRow) :
    Except String (Option (List ReleaseDated)) :=
  if rows.isEmpty then .ok none
  else
    match standardize_dates_col mixed (rows.map (·.date)) with
    | .error e => .error e
    | .ok ds => .ok (some (List.zipWith (fun (r : ReleaseRow) (d : PDate) =>
        { date := d, product := r.product, quantity := r.quantity,
          weight := r.weight, month := monthAbbrevLower d.month,
          year_month := renderYearMonthAbbrev d.year d.month }) rows ds))

/-! ### Substring matching for the gizzard correction -/

/-- Needle-at-the-front test on character lists. -/
def startsW : List Char → List Char → Bool
  | [], _ => true
  | _ :: _, [] => false
  | a :: as, b :: bs => a == b && startsW as bs

/-- Substring search on character lists. -/
def hasSubstrL (needle : List Char) : List Char → Bool
  | [] => needle.isEmpty
  | c :: rest => startsW needle (c :: rest) || hasSubstrL needle rest

/-- Case-insensitive substring containment, the model of
`Series.str.contains(pat, case=False)` with a plain-text pattern. -/
def containsCI (hay pat : String) : Bool := hasSubstrL (toLowerS pat).data (toLowerS hay).data

/-- Product name constants (source `PRODUCT_TYPES`). -/
def PRODUCT_WHOLE_CHICKEN : String := "whole chicken"

/-- Gizzard product name (source `PRODUCT_TYPES['GIZZARD']`). -/
def PRODUCT_GIZZARD : String := "gizzard"

/-- Gizzard quantity correction of `process_sheets_data` (source lines
312-316): every release record whose product contains the gizzard name,
case-insensitively, has its quantity forced to 0. -/
def gizzard_quantity_fix (rows : List ReleaseDated) : List ReleaseDated :=
  rows.map (fun r => if containsCI r.product PRODUCT_GIZZARD then { r with quantity := 0 } else r)

/-! ### Monthly aggregation and the summary (`create_summary_df`) -/

/-- Sum of a list of rationals. -/
def sumQ (l : List Q) : Q := l.foldr (· + ·) 0

/-- Aggregate of `product_summaries['chicken_inflow']['quantity']` at one
bucket, combined with the `map`/`fillna(0)` of source lines 175-180: the
summed quantity of whole-chicken inflow records of that `year_month`,
`0` when there are none. -/
def chicken_inflow_quantity_sum (inflow : List InflowDated) (ym : String) : Q :=
  sumQ ((inflow.filter (fun r => r.product_type == PRODUCT_WHOLE_CHICKEN && r.year_month == ym)).map (·.quantity))

/-- Aggregate `chicken_inflow.weight` at one bucket. -/
def chicken_inflow_weight_sum (inflow : List InflowDated) (ym : String) : Q :=
  sumQ ((inflow.filter (fun r => r.product_type == PRODUCT_WHOLE_CHICKEN && r.year_month == ym)).map (·.weight))

/-- Aggregate `chicken_release.quantity` at one bucket. -/
def chicken_release_quantity_sum (release : List ReleaseDated) (ym : String) : Q :=
  sumQ ((release.filter (fun r => r.product == PRODUCT_WHOLE_CHICKEN && r.year_month == ym)).map (·.quantity))

/-- Aggregate `chicken_release.weight` at one bucket. -/
def chicken_release_weight_sum (release : List ReleaseDated) (ym : String) : Q :=
  sumQ ((release.filter (fun r => r.product == PRODUCT_WHOLE_CHICKEN && r.year_month == ym)).map (·.weight))

/-- Aggregate `gizzard_inflow.weight` at one bucket. -/
def gizzard_inflow_weight_sum (inflow : List InflowDated) (ym : String) : Q :=
  sumQ ((inflow.filter (fun r => r.product_type == PRODUCT_GIZZARD && r.year_month == ym)).map (·.weight))

/-- Aggregate `gizzard_release.weight` at one bucket. -/
def gizzard_release_weight_sum (release : List ReleaseDated) (ym : String) : Q :=
  sumQ ((release.filter (fun r => r.product == PRODUCT_GIZZARD && r.year_month == ym)).map (·.weight))

/-- One row of the summary frame, with all fourteen columns of the source. -/
structure SummaryRow where
  month : String
  year_month : String
  total_chicken_inflow_quantity : Q
  total_chicken_inflow_weight : Q
  total_chicken_release_quantity : Q
  total_chicken_release_weight : Q
  total_gizzard_inflow_weight : Q
  total_gizzard_release_weight : Q
  chicken_quantity_opening_stock : Q
  chicken_weight_opening_stock : Q
  gizzard_weight_opening_stock : Q
  chicken_quantity_stock_balance : Q
  chicken_weight_stock_balance : Q
  gizzard_weight_stock_balance : Q
deriving DecidableEq, Repr

/-- Month column of the summary (source line 138): the part after the dash
of the `year_month` string, lower-cased.  A string without a dash gives
pandas a missing value there; it is modelled as the empty string, and such
a bucket string aborts the summary at the later date parse either way. -/
def monthOfYm (ym : String) : String := toLowerS (String.mk ((splitOnChar '-' ym.data).getD 1 []))

/-- Distinct values, the model of `set(...)` before sorting. -/
def dedup : List String → List String
  | [] => []
  | x :: xs => if x ∈ xs then dedup xs else x :: dedup xs

/-- Summary row before the balance walk: the six totals filled in, the six
opening/balance columns at their initial `0.0` (source lines 137-200).
The `metric in columns` guard of source line 176 is always satisfied in
the record view, where every record carries both metrics, so each column
takes the map-and-fill-zero branch. -/
def mkSummaryBase (inflow : List InflowDated) (release : List ReleaseDated) (ym : String) :
    SummaryRow :=
  { month := monthOfYm ym, year_month := ym,
    total_chicken_inflow_quantity := chicken_inflow_quantity_sum inflow ym,
    total_chicken_inflow_weight := chicken_inflow_weight_sum inflow ym,
    total_chicken_release_quantity := chicken_release_quantity_sum release ym,
    total_chicken_release_weight := chicken_release_weight_sum release ym,
    total_gizzard_inflow_weight := gizzard_inflow_weight_sum inflow ym,
    total_gizzard_release_weight := gizzard_release_weight_sum release ym,
    chicken_quantity_opening_stock := 0, chicken_weight_opening_stock := 0,
    gizzard_weight_opening_stock := 0, chicken_quantity_stock_balance := 0,
    chicken_weight_stock_balance := 0, gizzard_weight_stock_balance := 0 }

/-- Bucket sort key: the model of
`pd.to_datetime(year_month, format='%Y-%b')` (source line 183).  The
parsed month `m` of year `y` is encoded as `y * 100 + m`, whose numeric
order is exactly the calendar order of the first days of the months. -/
def parseYM (s : String) : Option Nat :=
  let l := s.data
  let ys := l.takeWhile isDigitC
  match l.dropWhile isDigitC with
  | '-' :: ms =>
    if ys ≠ [] ∧ ys.length ≤ 4 then
      (monthFromAbbrev ms).map (fun m => digitsVal ys * 100 + m)
    else none
  | _ => none

/-- Attach the sort key to every summary row; a bucket string the date
parser rejects makes the whole summary creation raise (source line 183
inside the surrounding try/except). -/
def keyRows : List SummaryRow → Except String (List (SummaryRow × Nat))
  | [] => .ok []
  | r :: rest =>
    match parseYM r.year_month with
    | none => .error "Failed to create summary: unparseable year_month"
    | some k =>
      match keyRows rest with
      | .error e => .error e
      | .ok t => .ok ((r, k) :: t)

/-- Bucket key a summary row receives when its bucket string parses;
`keyRows` succeeds exactly when every row's string parses, and then
attaches this value. -/
def keyOfS (s : String) : Nat := (parseYM s).getD 0

/-- Balance walk over the chronologically ascending rows (source lines
203-235): each row's opening stock is the accumulator (0 before the first
row, the previous balance afterwards) and its balance is
opening + inflow − release, which becomes the next accumulator. -/
def walk (cq cw gw : Q) : List (SummaryRow × Nat) → List (SummaryRow × Nat)
  | [] => []
  | (r, k) :: rest =>
    let cqb := cq + r.total_chicken_inflow_quantity - r.total_chicken_release_quantity
    let cwb := cw + r.total_chicken_inflow_weight - r.total_chicken_release_weight
    let gwb := gw + r.total_gizzard_inflow_weight - r.total_gizzard_release_weight
    ({ r with chicken_quantity_opening_stock := cq, chicken_weight_opening_stock := cw,
              gizzard_weight_opening_stock := gw, chicken_quantity_stock_balance := cqb,
              chicken_weight_stock_balance := cwb, gizzard_weight_stock_balance := gwb }, k)
      :: walk cqb cwb gwb rest

/-- Output rendering of the bucket key, strftime `%Y-%m` (source line 239),
e.g. `2024-01`. -/
def renderYYYYMM (k : Nat) : String := String.mk (pad4 (k / 100) ++ '-' :: pad2 (k % 100))

/-- Model of `create_summary_df` (source lines 130-244): the union of the
bucket strings of both ledgers is deduplicated and sorted
lexicographically, the six totals are attached per bucket, the rows are
re-sorted ascending by the parsed bucket date, walked for balances,
re-sorted descending, and the bucket is re-rendered as `YYYY-MM`.
Both pandas sorts are modelled by a stable insertion sort; the claims
about ordering apply to runs whose bucket keys are distinct, where any
correct sort produces the same list.  This constant is the sorted union
of the bucket strings of both ledgers (source lines 134-135). -/
def all_year_months (inflow : List InflowDated) (release : List ReleaseDated) : List String :=
  List.insertionSort (fun a b => a ≤ b)
    (dedup (inflow.map (·.year_month) ++ release.map (·.year_month)))

/-- Summary rows before the balance walk, one per bucket of the union
(source lines 137-200). -/
def summary_base (inflow : List InflowDated) (release : List ReleaseDated) : List SummaryRow :=
  (all_year_months inflow release).map (mkSummaryBase inflow release)

def create_summary_df (inflow : List InflowDated) (release : List ReleaseDated) :
    Except String (List SummaryRow) :=
  match keyRows (summary_base inflow release) with
  | .error e => .error e
  | .ok keyed =>
    let asc := List.insertionSort (fun a b => a.2 ≤ b.2) keyed
    let walked := walk 0 0 0 asc
    let desc := List.insertionSort (fun a b => b.2 ≤ a.2) walked
    .ok (desc.map (fun p => { p.1 with year_month := renderYYYYMM p.2 }))

/-- Keyed summary rows, the successful result of attaching sort keys. -/
def keyed_base (inflow : List InflowDated) (release : List ReleaseDated) :
    List (SummaryRow × Nat) :=
  (summary_base inflow release).map (fun p => (p, keyOfS p.year_month))

/-- Keyed rows sorted ascending by bucket, the input of the balance walk. -/
def asc_sorted (inflow : List InflowDated) (release : List ReleaseDated) :
    List (SummaryRow × Nat) :=
  List.insertionSort (fun a b => a.2 ≤ b.2) (keyed_base inflow release)

/-- Keyed rows after the balance walk, still in ascending bucket order. -/
def walked_rows (inflow : List InflowDated) (release : List ReleaseDated) :
    List (SummaryRow × Nat) :=
  walk 0 0 0 (asc_sorted inflow release)

/-- Frame-level entry to `create_summary_df`: a ledger that never went
through date standardization (the empty-frame early return, `none`) has
no `year_month` column, so the column access at source line 134 raises a
`KeyError` that the surrounding handler turns into a
`DataProcessingError`. -/
def create_summary_frames :
    Option (List InflowDated) → Option (List ReleaseDated) → Except String (List SummaryRow)
  | some i, some r => create_summary_df i r
  | _, _ => .error "Failed to create summary: missing year_month column"

/-- Date cell usable test of the pre-filter at source lines 305-307: the
`notna` conjunct is vacuous on a textual column, so the filter keeps the
rows whose date cell is non-blank. -/
def date_not_blank (s : String) : Bool := s ≠ ""

/-- Model of `process_sheets_data` from the blank-date pre-filter onward
(source lines 305-320): filter out blank dates, standardize dates of both
ledgers, apply the gizzard quantity correction to the release ledger, and
build the summary.  The standardization of the raw frames (lines 297-303)
is modelled separately at the table level; this record view presumes the
required columns exist, which is the regime every claim addresses. -/
def process_sheets_data (mixed : String → Option PDate)
    (stock_inflow : List InflowRow) (release : List ReleaseRow) :
    Except String (Option (List InflowDated) × Option (List ReleaseDated) × List SummaryRow) :=
  let si := stock_inflow.filter (fun r => date_not_blank r.date)
  let rel := release.filter (fun r => date_not_blank r.date)
  match standardize_dates_inflow mixed si with
  | .error e => .error e
  | .ok sid =>
    match standardize_dates_release mixed rel with
    | .error e => .error e
    | .ok reld =>
      let reldFixed := reld.map gizzard_quantity_fix
      match create_summary_frames sid reldFixed with
      | .error e => .error e
      | .ok summary => .ok (sid, reldFixed, summary)

/-! ### Statement-side observables -/

/-- Bucket key of an output `YYYY-MM` string: digits, dash, a two-digit
month in 1..12, read back as `year * 100 + month`.  Used to state the
calendar order of the emitted summary. -/
def parseYYYYMM (s : String) : Option Nat :=
  let l := s.data
  let ys := l.takeWhile isDigitC
  match l.dropWhile isDigitC with
  | '-' :: ms =>
    if ys ≠ [] ∧ ys.length ≤ 4 ∧ ms.length ≤ 2 ∧ ms.all isDigitC ∧
        1 ≤ digitsVal ms ∧ digitsVal ms ≤ 12 then
      some (digitsVal ys * 100 + digitsVal ms)
    else none
  | _ => none

/-- Calendar bucket of an emitted summary row. -/
def bucketNum (r : SummaryRow) : Nat := (parseYYYYMM r.year_month).getD 0

/-- Shape test for the output rendering `YYYY-MM`: exactly four digits, a
dash, and two digits.  The internal `YYYY-MMM` bucket key (whose month
part is three letters) never satisfies it. -/
def isYYYYMM (s : String) : Bool :=
  match s.data with
  | [c1, c2, c3, c4, '-', c5, c6] =>
    isDigitC c1 && isDigitC c2 && isDigitC c3 && isDigitC c4 && isDigitC c5 && isDigitC c6
  | _ => false

/-- A `year_month` string is valid when it is the canonical strftime
`%Y-%b` rendering of its own parse — exactly what `standardize_dates`
produces for every record. -/
def validYmB (s : String) : Bool :=
  match parseYM s with
  | some k => renderYearMonthAbbrev (k / 100) (k % 100) == s
  | none => false

/-- Every record of a dated inflow ledger carries a canonical bucket string. -/
abbrev ValidInflow (rows : List InflowDated) : Prop :=
  ∀ r ∈ rows, validYmB r.year_month = true

/-- Every record of a dated release ledger carries a canonical bucket string. -/
abbrev ValidRelease (rows : List ReleaseDated) : Prop :=
  ∀ r ∈ rows, validYmB r.year_month = true

/-- Carry-forward continuity of a summary segment: the first row opens at
the given accumulators and every later row opens at the previous row's
balances. -/
def ChainFrom : Q → Q → Q → List SummaryRow → Prop
  | _, _, _, [] => True
  | a, b, c, r :: rest =>
    r.chicken_quantity_opening_stock = a ∧ r.chicken_weight_opening_stock = b ∧
    r.gizzard_weight_opening_stock = c ∧
    ChainFrom r.chicken_quantity_stock_balance r.chicken_weight_stock_balance
      r.gizzard_weight_stock_balance rest

/-! ### Sample data for concrete witnesses -/

/-- Sample dated inflow record (the scenario of spec section 8). -/
def sampleInflowRecord : InflowDated :=
  { date := ⟨2024, 1, 15⟩, product_type := "whole chicken", quantity := 100, weight := 150,
    month := "jan", year_month := "2024-Jan" }

/-- Sample dated inflow ledger (the scenario of spec section 8). -/
def sampleInflow : List InflowDated := [sampleInflowRecord]

/-- Sample dated release record (the scenario of spec section 8). -/
def sampleReleaseRecord : ReleaseDated :=
  { date := ⟨2024, 2, 10⟩, product := "whole chicken", quantity := 30, weight := 45,
    month := "feb", year_month := "2024-Feb" }

/-- Sample dated release ledger (the scenario of spec section 8). -/
def sampleRelease : List ReleaseDated := [sampleReleaseRecord]

/-- February row the model computes for the sample ledgers. -/
def sampleFebRow : SummaryRow :=
  { month := "feb", year_month := "2024-02",
    total_chicken_inflow_quantity := 0, total_chicken_inflow_weight := 0,
    total_chicken_release_quantity := 30, total_chicken_release_weight := 45,
    total_gizzard_inflow_weight := 0, total_gizzard_release_weight := 0,
    chicken_quantity_opening_stock := 100, chicken_weight_opening_stock := 150,
    gizzard_weight_opening_stock := 0, chicken_quantity_stock_balance := 70,
    chicken_weight_stock_balance := 105, gizzard_weight_stock_balance := 0 }

/-- January row the model computes for the sample ledgers. -/
def sampleJanRow : SummaryRow :=
  { month := "jan", year_month := "2024-01",
    total_chicken_inflow_quantity := 100, total_chicken_inflow_weight := 150,
    total_chicken_release_quantity := 0, total_chicken_release_weight := 0,
    total_gizzard_inflow_weight := 0, total_gizzard_release_weight := 0,
    chicken_quantity_opening_stock := 0, chicken_weight_opening_stock := 0,
    gizzard_weight_opening_stock := 0, chicken_quantity_stock_balance := 100,
    chicken_weight_stock_balance := 150, gizzard_weight_stock_balance := 0 }

/-- Summary the model computes for the sample ledgers: February first
(descending), with January's balances carried into February's opening. -/
def sampleSummary : List SummaryRow := [sampleFebRow, sampleJanRow]

/-- Sample raw inflow ledger for the process-level witnesses. -/
def sampleRawInflow : List InflowRow :=
  [{ date := "15 jan 2024", product_type := "whole chicken", quantity := 100, weight := 150 }]

/-- Sample raw release ledger containing a gizzard-substring product with a
nonzero recorded quantity. -/
def sampleRawRelease : List ReleaseRow :=
  [{ date := "10 feb 2024", product := "chicken gizzard", quantity := 7, weight := 45 }]

/-- Raw inflow sheet carrying both the generic and the delivery-specific
weight columns, used to examine the rename precedence. -/
def bothWeightsTable : List (String × List String) :=
  [("weight_in_kg", ["1"]), ("weight_at_delivery", ["2"])]

/-- Name a column ends up with after both weight relabels. -/
def renameTarget (c : String) : String :=
  if c = "weight_in_kg" ∨ c = "weight_at_delivery" then "weight" else c

/-- Inflow record whose product merely contains `whole chicken` as a
substring, used to examine exact-match aggregation. -/
def oddInflowRecord : InflowDated :=
  { date := ⟨2024, 1, 20⟩, product_type := "whole chicken legs", quantity := 5, weight := 9,
    month := "jan", year_month := "2024-Jan" }

/-- Release record whose product merely contains `gizzard` as a substring. -/
def oddReleaseRecord : ReleaseDated :=
  { date := ⟨2024, 2, 12⟩, product := "chicken gizzard", quantity := 7, weight := 3,
    month := "feb", year_month := "2024-Feb" }

/-- Raw inflow ledger whose only row has a blank date. -/
def blankDateInflow : List InflowRow :=
  [{ date := "", product_type := "whole chicken", quantity := 1, weight := 2 }]

/-- Dated inflow ledger `process_sheets_data` computes for the sample raw
ledgers. -/
def sampleProcessedInflow : List InflowDated :=
  [{ date := ⟨2024, 1, 15⟩, product_type := "whole chicken", quantity := 100, weight := 150,
     month := "jan", year_month := "2024-Jan" }]

/-- Dated release ledger `process_sheets_data` computes for the sample raw
ledgers: the gizzard-substring record with its quantity forced to 0. -/
def sampleProcessedRelease : List ReleaseDated :=
  [{ date := ⟨2024, 2, 10⟩, product := "chicken gizzard", quantity := 0, weight := 45,
     month := "feb", year_month := "2024-Feb" }]

/-- Summary `process_sheets_data` computes for the sample raw ledgers. -/
def sampleProcessedSummary : List SummaryRow :=
  [{ month := "feb", year_month := "2024-02",
     total_chicken_inflow_quantity := 0, total_chicken_inflow_weight := 0,
     total_chicken_release_quantity := 0, total_chicken_release_weight := 0,
     total_gizzard_inflow_weight := 0, total_gizzard_release_weight := 0,
     chicken_quantity_opening_stock := 100, chicken_weight_opening_stock := 150,
     gizzard_weight_opening_stock := 0, chicken_quantity_stock_balance := 100,
     chicken_weight_stock_balance := 150, gizzard_weight_stock_balance := 0 },
   { month := "jan", year_month := "2024-01",
     total_chicken_inflow_quantity := 100, total_chicken_inflow_weight := 150,
     total_chicken_release_quantity := 0, total_chicken_release_weight := 0,
     total_gizzard_inflow_weight := 0, total_gizzard_release_weight := 0,
     chicken_quantity_opening_stock := 0, chicken_weight_opening_stock := 0,
     gizzard_weight_opening_stock := 0, chicken_quantity_stock_balance := 100,
     chicken_weight_stock_balance := 150, gizzard_weight_stock_balance := 0 }]

/-! ## Lemmas and theorems -/

theorem traverseMixed_eq (mixed : String → Option PDate) (cells : List String) :
    traverseMixed mixed cells =
      if cells.all (fun c => (mixed c).isSome) then
        some (cells.map (fun c => (mixed c).getD ⟨1970, 1, 1⟩))
      else none := by
  induction cells with
  | nil => simp [traverseMixed]
  | cons c cs ih =>
    cases h : mixed c with
    | none => simp [traverseMixed, h]
    | some d =>
      simp only [traverseMixed, h, ih, List.all_cons, Option.isSome_some, Bool.true_and,
        List.map_cons, Option.getD_some]
      by_cases hall : cs.all (fun c => (mixed c).isSome) = true
      · rw [if_pos hall, if_pos hall]
      · rw [if_neg hall, if_neg hall]

/-- C5: date parsing in `standardize_dates` tries the exact formats
`%d %b %Y`, `%d/%m/%y`, `%d-%b-%Y` in that fixed order; the first format
that parses the entire date column wins for the whole column; if none
parses the whole column, the lenient mixed-format parser is applied, and
if any row is still unresolvable the whole operation errors out instead
of skipping or dropping that row. -/
theorem c5_date_parsing_strategy :
    DATE_FORMATS = ["%d %b %Y", "%d/%m/%y", "%d-%b-%Y"] ∧
    ∀ (mixed : String → Option PDate) (cells : List String),
      standardize_dates_col mixed cells = spec_date_column mixed cells := by
  refine ⟨rfl, fun mixed cells => ?_⟩
  simp only [standardize_dates_col, spec_date_column, DATE_FORMATS, tryFormatsLoop, List.find?]
  cases h1 : to_datetime_format "%d %b %Y" cells with
  | some ds => simp [h1]
  | none =>
    cases h2 : to_datetime_format "%d/%m/%y" cells with
    | some ds => simp [h1, h2]
    | none =>
      cases h3 : to_datetime_format "%d-%b-%Y" cells with
      | some ds => simp [h1, h2, h3]
      | none =>
        simp only [h1, h2, h3, Option.isSome_none, traverseMixed_eq]
        by_cases hall : cells.all (fun c => (mixed c).isSome) = true
        · rw [if_pos hall, if_pos hall]
        · rw [if_neg hall, if_neg hall]

theorem to_numeric_col_eq (l : List String) :
    to_numeric_col l =
      if l.all (fun c => (c == "") || (parseDecS c).isSome) then some (l.map parseDecS)
      else none := by
  induction l with
  | nil => simp [to_numeric_col]
  | cons c cs ih =>
    by_cases hc : c = ""
    · subst hc
      have hp : parseDecS "" = none := by rfl
      simp only [to_numeric_col, to_numeric_cell, if_pos rfl, ih, List.all_cons, List.map_cons, hp,
        beq_self_eq_true, Bool.true_or, Bool.true_and]
      by_cases hall : cs.all (fun c => (c == "") || (parseDecS c).isSome) = true
      · rw [if_pos hall, if_pos hall]; simp
      · rw [if_neg hall, if_neg hall]; simp
    · cases hp : parseDecS c with
      | none =>
        simp [to_numeric_col, to_numeric_cell, hc, hp]
      | some v =>
        have hb : (c == "") = false := by simp [hc]
        simp only [to_numeric_col, to_numeric_cell, if_neg hc, hp, Option.map_some, ih,
          List.all_cons, List.map_cons, Option.isSome_some, hb, Bool.false_or, Bool.true_and]
        by_cases hall : cs.all (fun c => (c == "") || (parseDecS c).isSome) = true
        · rw [if_pos hall, if_pos hall]; rfl
        · rw [if_neg hall, if_neg hall]; rfl

/-- C6: column coercion is all-or-nothing and ignores empty cells.  A
column becomes numeric exactly when every cell that is non-empty after
trimming, lower-casing and comma stripping parses as a number (empty
cells become `NaN` entries of the numeric column); otherwise the whole
column stays textual, keeping the trimmed lower-cased cell strings. -/
theorem c6_coercion_all_or_nothing (cells : List String) :
    standardizeColumn cells =
      if cells.all (fun c =>
          (removeCommas (cleanCell c) == "") || (parseDecS (removeCommas (cleanCell c))).isSome)
      then ColVals.nums (cells.map (fun c => parseDecS (removeCommas (cleanCell c))))
      else ColVals.text (cells.map cleanCell) := by
  simp only [standardizeColumn, List.map_map, to_numeric_col_eq, List.all_map, Function.comp_def]
  by_cases hall : cells.all (fun c =>
      (removeCommas (cleanCell c) == "") || (parseDecS (removeCommas (cleanCell c))).isSome) = true
  · rw [if_pos hall, if_pos hall]
  · rw [if_neg hall, if_neg hall]

theorem names_after_renames (t : List (String × List String)) :
    (rename_weight_at_delivery (standardize_dataframe_table t)).map Prod.fst
      = t.map (fun col => renameTarget (canonName col.1)) := by
  simp only [rename_weight_at_delivery, standardize_dataframe_table, List.map_map]
  refine List.map_congr_left ?_
  intro col _
  simp only [Function.comp_def, renameTarget]
  by_cases h1 : canonName col.1 = "weight_in_kg"
  · simp [h1]
  · by_cases h2 : canonName col.1 = "weight_at_delivery" <;> simp [h1, h2]

theorem count_weight_renameTarget (l : List String) :
    (l.map renameTarget).count "weight"
      = l.count "weight_in_kg" + l.count "weight_at_delivery" + l.count "weight" := by
  induction l with
  | nil => simp
  | cons c cs ih =>
    simp only [List.map_cons, List.count_cons, ih, renameTarget]
    by_cases h1 : c = "weight_in_kg"
    · simp [h1]; omega
    · by_cases h2 : c = "weight_at_delivery"
      · simp [h1, h2]; omega
      · by_cases h3 : c = "weight"
        · simp [h1, h2, h3]; omega
        · simp [h1, h2, h3]

/-- C7 counterexample: on a sheet carrying both `weight_in_kg` and
`weight_at_delivery`, the two renames produce two columns named
`weight` — the relabel does not overwrite, so no single `weight` column
holding the delivery-specific values remains. -/
theorem c7_counterexample :
    ((rename_weight_at_delivery (standardize_dataframe_table bothWeightsTable)).map Prod.fst
        = ["weight", "weight"]) ∧
    ¬ (((rename_weight_at_delivery (standardize_dataframe_table bothWeightsTable)).map
          Prod.fst).count "weight" = 1) := by
  constructor
  · rfl
  · decide

/-- C7 amended: the delivery-specific rename is applied after the generic
one, but pandas `rename` relabels and never overwrites: every column whose
canonical name is `weight_in_kg` or `weight_at_delivery` ends up named
`weight` alongside any pre-existing `weight` column, the column count is
preserved, and a sheet carrying both weight columns therefore ends with
two columns named `weight` rather than a single one. -/
theorem c7_rename_relabels_not_overwrites (t : List (String × List String)) :
    ((rename_weight_at_delivery (standardize_dataframe_table t)).map Prod.fst).count "weight"
      = (t.map (fun col => canonName col.1)).count "weight_in_kg"
        + (t.map (fun col => canonName col.1)).count "weight_at_delivery"
        + (t.map (fun col => canonName col.1)).count "weight" ∧
    (rename_weight_at_delivery (standardize_dataframe_table t)).length = t.length := by
  constructor
  · rw [names_after_renames]
    have h := count_weight_renameTarget (t.map (fun col => canonName col.1))
    simpa [List.map_map, Function.comp_def] using h
  · simp [rename_weight_at_delivery, standardize_dataframe_table]

/-- C9: the monthly aggregates select records by exact string equality of
the product field with `whole chicken` or `gizzard`; a record whose
product is any other value — including a string merely containing one of
those names as a substring — contributes neither quantity nor weight to
any of the six totals. -/
theorem c9_exact_match_aggregation
    (ri : InflowDated) (rr : ReleaseDated) (inflow : List InflowDated)
    (release : List ReleaseDated) (ym : String)
    (hi1 : ri.product_type ≠ PRODUCT_WHOLE_CHICKEN) (hi2 : ri.product_type ≠ PRODUCT_GIZZARD)
    (hr1 : rr.product ≠ PRODUCT_WHOLE_CHICKEN) (hr2 : rr.product ≠ PRODUCT_GIZZARD) :
    chicken_inflow_quantity_sum (ri :: inflow) ym = chicken_inflow_quantity_sum inflow ym ∧
    chicken_inflow_weight_sum (ri :: inflow) ym = chicken_inflow_weight_sum inflow ym ∧
    gizzard_inflow_weight_sum (ri :: inflow) ym = gizzard_inflow_weight_sum inflow ym ∧
    chicken_release_quantity_sum (rr :: release) ym = chicken_release_quantity_sum release ym ∧
    chicken_release_weight_sum (rr :: release) ym = chicken_release_weight_sum release ym ∧
    gizzard_release_weight_sum (rr :: release) ym = gizzard_release_weight_sum release ym := by
  refine ⟨?_, ?_, ?_, ?_, ?_, ?_⟩ <;>
    simp [chicken_inflow_quantity_sum, chicken_inflow_weight_sum, gizzard_inflow_weight_sum,
      chicken_release_quantity_sum, chicken_release_weight_sum, gizzard_release_weight_sum,
      List.filter_cons, hi1, hi2, hr1, hr2]

theorem c9_witness :
    chicken_inflow_quantity_sum (oddInflowRecord :: sampleInflow) "2024-Jan"
        = chicken_inflow_quantity_sum sampleInflow "2024-Jan" ∧
    chicken_inflow_weight_sum (oddInflowRecord :: sampleInflow) "2024-Jan"
        = chicken_inflow_weight_sum sampleInflow "2024-Jan" ∧
    gizzard_inflow_weight_sum (oddInflowRecord :: sampleInflow) "2024-Jan"
        = gizzard_inflow_weight_sum sampleInflow "2024-Jan" ∧
    chicken_release_quantity_sum (oddReleaseRecord :: sampleRelease) "2024-Jan"
        = chicken_release_quantity_sum sampleRelease "2024-Jan" ∧
    chicken_release_weight_sum (oddReleaseRecord :: sampleRelease) "2024-Jan"
        = chicken_release_weight_sum sampleRelease "2024-Jan" ∧
    gizzard_release_weight_sum (oddReleaseRecord :: sampleRelease) "2024-Jan"
        = gizzard_release_weight_sum sampleRelease "2024-Jan" :=
  c9_exact_match_aggregation oddInflowRecord oddReleaseRecord sampleInflow sampleRelease
    "2024-Jan" (by decide) (by decide) (by decide) (by decide)

theorem gizzard_fix_quantity (l : List ReleaseDated) (r : ReleaseDated)
    (hm : r ∈ gizzard_quantity_fix l)
    (hc : containsCI r.product PRODUCT_GIZZARD = true) :
    r.quantity = 0 := by
  obtain ⟨r0, h0, heq⟩ := List.mem_map.1 hm
  by_cases h : containsCI r0.product PRODUCT_GIZZARD = true
  · rw [if_pos h] at heq
    rw [← heq]
  · rw [if_neg h] at heq
    rw [← heq] at hc
    exact absurd hc h

/-- C4: after `process_sheets_data`, every release record whose product
contains the gizzard name as a substring, case-insensitively, has its
quantity equal to 0 — so such a record contributes 0 to every quantity
aggregate regardless of its raw recorded quantity. -/
theorem c4_gizzard_quantity_suppression
    (mixed : String → Option PDate) (si : List InflowRow) (rel : List ReleaseRow)
    (sid : Option (List InflowDated)) (reld : Option (List ReleaseDated))
    (summary : List SummaryRow) (rl : List ReleaseDated) (r : ReleaseDated)
    (ho : process_sheets_data mixed si rel = .ok (sid, reld, summary))
    (hrl : reld = some rl) (hr : r ∈ rl)
    (hc : containsCI r.product PRODUCT_GIZZARD = true) :
    r.quantity = 0 := by
  subst hrl
  simp only [process_sheets_data] at ho
  split at ho
  · simp at ho
  · split at ho
    · simp at ho
    · split at ho
      · simp at ho
      · simp only [Except.ok.injEq, Prod.mk.injEq] at ho
        obtain ⟨h1, h2, h3⟩ := ho
        obtain ⟨l0, hl0, hfix⟩ := Option.map_eq_some'.mp h2
        exact gizzard_fix_quantity l0 r (hfix ▸ hr) hc

theorem c4_witness :
    process_sheets_data (fun _ => none) sampleRawInflow sampleRawRelease
        = .ok (some sampleProcessedInflow, some sampleProcessedRelease, sampleProcessedSummary) ∧
    sampleProcessedRelease.head?.map (·.quantity) = some 0 :=
  ⟨by with_unfolding_all rfl, by
    have h := c4_gizzard_quantity_suppression (fun _ => none) sampleRawInflow sampleRawRelease
      (some sampleProcessedInflow) (some sampleProcessedRelease) sampleProcessedSummary
      sampleProcessedRelease
      { date := ⟨2024, 2, 10⟩, product := "chicken gizzard", quantity := 0, weight := 45,
        month := "feb", year_month := "2024-Feb" }
      (by with_unfolding_all rfl) rfl (by decide) (by decide)
    simp [sampleProcessedRelease, h]⟩

/-- C10: when either ledger has no row with a non-blank date, the filtered
frame is empty, `standardize_dates` returns it unchanged without the
`year_month` column, and `process_sheets_data` fails instead of building a
summary from the other ledger alone. -/
theorem c10_empty_ledger_failure
    (mixed : String → Option PDate) (si : List InflowRow) (rel : List ReleaseRow)
    (h : si.filter (fun r => date_not_blank r.date) = []
        ∨ rel.filter (fun r => date_not_blank r.date) = []) :
    (process_sheets_data mixed si rel).toOption = none := by
  simp only [process_sheets_data]
  rcases h with h | h
  · rw [h]
    have h1 : standardize_dates_inflow mixed [] = .ok none := by
      simp [standardize_dates_inflow]
    rw [h1]
    cases standardize_dates_release mixed (rel.filter fun r => date_not_blank r.date) with
    | error e => rfl
    | ok reld0 => cases reld0 <;> rfl
  · cases h1 : standardize_dates_inflow mixed (si.filter fun r => date_not_blank r.date) with
    | error e => rfl
    | ok sid0 =>
      rw [h]
      have h2 : standardize_dates_release mixed [] = .ok none := by
        simp [standardize_dates_release]
      rw [h2]
      cases sid0 <;> rfl

theorem c10_witness :
    (process_sheets_data (fun _ => none) blankDateInflow sampleRawRelease).toOption = none :=
  c10_empty_ledger_failure (fun _ => none) blankDateInflow sampleRawRelease (Or.inl rfl)

/-! ### Digit, parse and render lemmas -/

theorem isDigitC_le (c : Char) (h : isDigitC c = true) : 48 ≤ c.toNat ∧ c.toNat ≤ 57 := by
  simpa [isDigitC, Bool.and_eq_true, decide_eq_true_eq] using h

theorem digitVal_le_nine (c : Char) (h : isDigitC c = true) : digitVal c ≤ 9 := by
  obtain ⟨h1, h2⟩ := isDigitC_le c h
  simp only [digitVal]
  omega

theorem digitsVal_aux_lt (l : List Char) : ∀ acc, (∀ c ∈ l, isDigitC c = true) →
    l.foldl (fun a c => a * 10 + digitVal c) acc < (acc + 1) * 10 ^ l.length := by
  induction l with
  | nil => intro acc _; simp
  | cons c t ih =>
    intro acc h
    simp only [List.foldl_cons, List.length_cons]
    have hc := digitVal_le_nine c (h c (by simp))
    have ht := ih (acc * 10 + digitVal c) (fun x hx => h x (by simp [hx]))
    have hstep : (acc * 10 + digitVal c + 1) * 10 ^ t.length ≤ (acc + 1) * 10 ^ (t.length + 1) := by
      have : acc * 10 + digitVal c + 1 ≤ (acc + 1) * 10 := by omega
      calc (acc * 10 + digitVal c + 1) * 10 ^ t.length
          ≤ ((acc + 1) * 10) * 10 ^ t.length := Nat.mul_le_mul_right _ this
        _ = (acc + 1) * 10 ^ (t.length + 1) := by ring
    exact lt_of_lt_of_le ht hstep

theorem digitsVal_lt (l : List Char) (h : ∀ c ∈ l, isDigitC c = true) (h4 : l.length ≤ 4) :
    digitsVal l < 10000 := by
  have h1 := digitsVal_aux_lt l 0 h
  have h2 : (10 : Nat) ^ l.length ≤ 10 ^ 4 := Nat.pow_le_pow_right (by norm_num) h4
  simp only [digitsVal]
  omega

theorem monthFromAbbrev_range (ms : List Char) (m : Nat) (h : monthFromAbbrev ms = some m) :
    1 ≤ m ∧ m ≤ 12 := by
  unfold monthFromAbbrev at h
  split at h <;> simp_all <;> omega

theorem parseYM_bounds (s : String) (k : Nat) (h : parseYM s = some k) :
    1 ≤ k % 100 ∧ k % 100 ≤ 12 ∧ k / 100 ≤ 9999 := by
  simp only [parseYM] at h
  split at h
  · rename_i ms hdrop
    split at h
    · rename_i hcond
      obtain ⟨m, hm, hk⟩ := Option.map_eq_some'.mp h
      obtain ⟨hm1, hm2⟩ := monthFromAbbrev_range ms m hm
      have hys : digitsVal (s.data.takeWhile isDigitC) < 10000 := by
        refine digitsVal_lt _ (fun c hc => List.mem_takeWhile_imp hc) ?_
        exact hcond.2
      omega
    · exact absurd h (by simp)
  · exact absurd h (by simp)

theorem takeWhile_append_all (p : Char → Bool) (a : List Char) (x : Char) (b : List Char)
    (ha : ∀ c ∈ a, p c = true) (hx : p x = false) :
    (a ++ x :: b).takeWhile p = a := by
  induction a with
  | nil => simp [List.takeWhile_cons, hx]
  | cons c t ih =>
    have hc : p c = true := ha c (by simp)
    have ht := ih (fun d hd => ha d (by simp [hd]))
    simp [List.takeWhile_cons, hc, ht]

theorem dropWhile_append_all (p : Char → Bool) (a : List Char) (x : Char) (b : List Char)
    (ha : ∀ c ∈ a, p c = true) (hx : p x = false) :
    (a ++ x :: b).dropWhile p = x :: b := by
  induction a with
  | nil => simp [List.dropWhile_cons, hx]
  | cons c t ih =>
    have hc : p c = true := ha c (by simp)
    have ht := ih (fun d hd => ha d (by simp [hd]))
    simp [List.dropWhile_cons, hc, ht]

theorem digitChar_isDigit (n : Nat) : isDigitC (digitChar (n % 10)) = true := by
  have h : n % 10 < 10 := Nat.mod_lt _ (by norm_num)
  set v := n % 10 with hv
  interval_cases v <;> decide

theorem digitVal_digitChar (n : Nat) (h : n < 10) : digitVal (digitChar n) = n := by
  interval_cases n <;> decide

theorem pad4_digits (y : Nat) : ∀ c ∈ pad4 y, isDigitC c = true := by
  intro c hc
  simp only [pad4, List.mem_cons, List.not_mem_nil, or_false] at hc
  rcases hc with h | h | h | h <;> subst h <;> exact digitChar_isDigit _

theorem pad2_digits (m : Nat) : ∀ c ∈ pad2 m, isDigitC c = true := by
  intro c hc
  simp only [pad2, List.mem_cons, List.not_mem_nil, or_false] at hc
  rcases hc with h | h <;> subst h <;> exact digitChar_isDigit _

theorem digitsVal_pad4 (y : Nat) (h : y ≤ 9999) : digitsVal (pad4 y) = y := by
  have h1 : y / 1000 % 10 = y / 1000 := Nat.mod_eq_of_lt (by omega)
  simp only [pad4, digitsVal, List.foldl_cons, List.foldl_nil,
    digitVal_digitChar _ (Nat.mod_lt _ (by norm_num))]
  omega

theorem digitsVal_pad2 (m : Nat) (h : m ≤ 99) : digitsVal (pad2 m) = m := by
  simp only [pad2, digitsVal, List.foldl_cons, List.foldl_nil,
    digitVal_digitChar _ (Nat.mod_lt _ (by norm_num))]
  omega

theorem parseYYYYMM_render (k : Nat) (h1 : 1 ≤ k % 100) (h2 : k % 100 ≤ 12)
    (h3 : k / 100 ≤ 9999) : parseYYYYMM (renderYYYYMM k) = some k := by
  have hdata : (renderYYYYMM k).data = pad4 (k / 100) ++ '-' :: pad2 (k % 100) := rfl
  have htake : ((renderYYYYMM k).data.takeWhile isDigitC) = pad4 (k / 100) := by
    rw [hdata]
    exact takeWhile_append_all _ _ _ _ (pad4_digits _) (by decide)
  have hdrop : ((renderYYYYMM k).data.dropWhile isDigitC) = '-' :: pad2 (k % 100) := by
    rw [hdata]
    exact dropWhile_append_all _ _ _ _ (pad4_digits _) (by decide)
  have hm : digitsVal (pad2 (k % 100)) = k % 100 := digitsVal_pad2 _ (by omega)
  have hy : digitsVal (pad4 (k / 100)) = k / 100 := digitsVal_pad4 _ h3
  simp only [parseYYYYMM, htake, hdrop]
  rw [if_pos]
  · rw [hm, hy]
    congr 1
    omega
  · refine ⟨by simp [pad4], by simp [pad4], by simp [pad2], ?_, ?_, ?_⟩
    · simpa [List.all_eq_true] using pad2_digits (k % 100)
    · omega
    · omega

theorem isYYYYMM_render (k : Nat) : isYYYYMM (renderYYYYMM k) = true := by
  have hdata : (renderYYYYMM k).data =
      [digitChar (k / 100 / 1000 % 10), digitChar (k / 100 / 100 % 10),
       digitChar (k / 100 / 10 % 10), digitChar (k / 100 % 10), '-',
       digitChar (k % 100 / 10 % 10), digitChar (k % 100 % 10)] := rfl
  simp only [isYYYYMM, hdata, digitChar_isDigit, Bool.and_self]

/-! ### Dedup, validity, keying, sorting and walk lemmas -/

theorem mem_dedup (a : String) (l : List String) : a ∈ dedup l ↔ a ∈ l := by
  induction l with
  | nil => simp [dedup]
  | cons x xs ih =>
    by_cases hx : x ∈ xs
    · rw [dedup, if_pos hx, ih, List.mem_cons]
      constructor
      · exact Or.inr
      · rintro (rfl | h)
        · exact hx
        · exact h
    · rw [dedup, if_neg hx, List.mem_cons, List.mem_cons, ih]

theorem nodup_dedup (l : List String) : (dedup l).Nodup := by
  induction l with
  | nil => simp [dedup]
  | cons x xs ih =>
    by_cases hx : x ∈ xs
    · rw [dedup, if_pos hx]
      exact ih
    · rw [dedup, if_neg hx]
      refine List.nodup_cons.mpr ⟨?_, ih⟩
      rw [mem_dedup]
      exact hx

theorem validYmB_isSome (s : String) (h : validYmB s = true) : (parseYM s).isSome = true := by
  cases hp : parseYM s with
  | none => unfold validYmB at h; rw [hp] at h; simp at h
  | some k => simp

theorem validYmB_eq_render (s : String) (k : Nat) (hv : validYmB s = true)
    (hp : parseYM s = some k) : s = renderYearMonthAbbrev (k / 100) (k % 100) := by
  unfold validYmB at hv
  rw [hp] at hv
  exact (beq_iff_eq.mp hv).symm

theorem validYm_inj (s1 s2 : String) (k : Nat) (h1 : validYmB s1 = true)
    (h2 : validYmB s2 = true) (hp1 : parseYM s1 = some k) (hp2 : parseYM s2 = some k) :
    s1 = s2 := by
  rw [validYmB_eq_render s1 k h1 hp1, validYmB_eq_render s2 k h2 hp2]

theorem keyRows_ok (l : List SummaryRow) (h : ∀ p ∈ l, (parseYM p.year_month).isSome = true) :
    keyRows l = .ok (l.map (fun p => (p, keyOfS p.year_month))) := by
  induction l with
  | nil => rfl
  | cons p t ih =>
    have hp := h p (by simp)
    obtain ⟨k, hk⟩ := Option.isSome_iff_exists.mp hp
    simp only [keyRows, hk, ih (fun q hq => h q (by simp [hq])), List.map_cons]
    simp [keyOfS, hk]

theorem orderedInsert_append {α : Type} (r : α → α → Prop) [DecidableRel r] (a : α)
    (l : List α) (h : ∀ b ∈ l, ¬ r a b) : l.orderedInsert r a = l ++ [a] := by
  induction l with
  | nil => rfl
  | cons b t ih =>
    rw [List.orderedInsert, if_neg (h b (by simp))]
    simp [ih (fun x hx => h x (by simp [hx]))]

theorem insertionSort_desc_of_strictAsc {α : Type} (key : α → Nat) (l : List α)
    (h : l.Pairwise (fun a b => key a < key b)) :
    List.insertionSort (fun a b => key b ≤ key a) l = l.reverse := by
  induction l with
  | nil => rfl
  | cons x t ih =>
    rw [List.insertionSort, ih h.of_cons, orderedInsert_append]
    · simp
    · intro b hb
      have hb' : b ∈ t := by simpa using hb
      have hlt := (List.pairwise_cons.mp h).1 b hb'
      omega

theorem walk_keys (a b c : Q) (l : List (SummaryRow × Nat)) :
    (walk a b c l).map (·.2) = l.map (·.2) := by
  induction l generalizing a b c with
  | nil => rfl
  | cons p t ih =>
    cases p with
    | mk r k => simp [walk, ih]

theorem walk_balance (a b c : Q) (l : List (SummaryRow × Nat)) :
    ∀ q ∈ walk a b c l,
      q.1.chicken_quantity_stock_balance
          = q.1.chicken_quantity_opening_stock + q.1.total_chicken_inflow_quantity
            - q.1.total_chicken_release_quantity ∧
      q.1.chicken_weight_stock_balance
          = q.1.chicken_weight_opening_stock + q.1.total_chicken_inflow_weight
            - q.1.total_chicken_release_weight ∧
      q.1.gizzard_weight_stock_balance
          = q.1.gizzard_weight_opening_stock + q.1.total_gizzard_inflow_weight
            - q.1.total_gizzard_release_weight := by
  induction l generalizing a b c with
  | nil => simp [walk]
  | cons p t ih =>
    cases p with
    | mk r k =>
      intro q hq
      simp only [walk, List.mem_cons] at hq
      rcases hq with rfl | hq
      · exact ⟨rfl, rfl, rfl⟩
      · exact ih _ _ _ q hq

theorem walk_src (a b c : Q) (l : List (SummaryRow × Nat)) :
    ∀ q ∈ walk a b c l, ∃ p ∈ l, q.2 = p.2 ∧
      q.1.year_month = p.1.year_month ∧ q.1.month = p.1.month ∧
      q.1.total_chicken_inflow_quantity = p.1.total_chicken_inflow_quantity ∧
      q.1.total_chicken_inflow_weight = p.1.total_chicken_inflow_weight ∧
      q.1.total_chicken_release_quantity = p.1.total_chicken_release_quantity ∧
      q.1.total_chicken_release_weight = p.1.total_chicken_release_weight ∧
      q.1.total_gizzard_inflow_weight = p.1.total_gizzard_inflow_weight ∧
      q.1.total_gizzard_release_weight = p.1.total_gizzard_release_weight := by
  induction l generalizing a b c with
  | nil => simp [walk]
  | cons p t ih =>
    cases p with
    | mk r k =>
      intro q hq
      simp only [walk, List.mem_cons] at hq
      rcases hq with rfl | hq
      · exact ⟨(r, k), by simp, rfl, rfl, rfl, rfl, rfl, rfl, rfl, rfl, rfl⟩
      · obtain ⟨p, hp, hrest⟩ := ih _ _ _ q hq
        exact ⟨p, by simp [hp], hrest⟩

theorem walk_chain (g : SummaryRow × Nat → String) (l : List (SummaryRow × Nat)) :
    ∀ (a b c : Q),
      ChainFrom a b c ((walk a b c l).map (fun p => { p.1 with year_month := g p })) := by
  induction l with
  | nil => intro a b c; simp [walk, ChainFrom]
  | cons p t ih =>
    intro a b c
    cases p with
    | mk r k =>
      refine ⟨rfl, rfl, rfl, ?_⟩
      exact ih _ _ _

theorem chainFrom_head (a b c : Q) (r : SummaryRow) (rest : List SummaryRow)
    (h : ChainFrom a b c (r :: rest)) :
    r.chicken_quantity_opening_stock = a ∧ r.chicken_weight_opening_stock = b ∧
    r.gizzard_weight_opening_stock = c := ⟨h.1, h.2.1, h.2.2.1⟩

theorem chainFrom_get (l : List SummaryRow) : ∀ (a b c : Q), ChainFrom a b c l →
    ∀ i (h1 : i + 1 < l.length) (h0 : i < l.length),
      (l.get ⟨i + 1, h1⟩).chicken_quantity_opening_stock
          = (l.get ⟨i, h0⟩).chicken_quantity_stock_balance ∧
      (l.get ⟨i + 1, h1⟩).chicken_weight_opening_stock
          = (l.get ⟨i, h0⟩).chicken_weight_stock_balance ∧
      (l.get ⟨i + 1, h1⟩).gizzard_weight_opening_stock
          = (l.get ⟨i, h0⟩).gizzard_weight_stock_balance := by
  induction l with
  | nil => intro a b c _ i h1; simp at h1
  | cons r rest ih =>
    intro a b c hch i h1 h0
    cases i with
    | zero =>
      cases rest with
      | nil => simp at h1
      | cons s t =>
        have h2 := hch.2.2.2
        exact ⟨h2.1, h2.2.1, h2.2.2.1⟩
    | succ j =>
      have h2 := hch.2.2.2
      exact ih _ _ _ h2 j (Nat.lt_of_succ_lt_succ h1) (Nat.lt_of_succ_lt_succ h0)

/-! ### Structure of a successful summary run on canonical buckets -/

theorem all_year_months_valid (inflow : List InflowDated) (release : List ReleaseDated)
    (hvi : ValidInflow inflow) (hvr : ValidRelease release) :
    ∀ s ∈ all_year_months inflow release, validYmB s = true := by
  intro s hs
  have hs1 : s ∈ dedup (inflow.map (·.year_month) ++ release.map (·.year_month)) :=
    (List.perm_insertionSort _ _).mem_iff.mp hs
  rw [mem_dedup] at hs1
  rcases List.mem_append.mp hs1 with h | h
  · obtain ⟨r, hr, rfl⟩ := List.mem_map.mp h
    exact hvi r hr
  · obtain ⟨r, hr, rfl⟩ := List.mem_map.mp h
    exact hvr r hr

theorem mem_all_year_months_iff (inflow : List InflowDated) (release : List ReleaseDated)
    (s : String) :
    s ∈ all_year_months inflow release ↔
      (∃ r ∈ inflow, r.year_month = s) ∨ (∃ r ∈ release, r.year_month = s) := by
  unfold all_year_months
  rw [(List.perm_insertionSort _ _).mem_iff, mem_dedup, List.mem_append]
  simp only [List.mem_map]

theorem nodup_all_year_months (inflow : List InflowDated) (release : List ReleaseDated) :
    (all_year_months inflow release).Nodup :=
  ((List.perm_insertionSort _ _).nodup_iff).mpr (nodup_dedup _)

theorem insertionSort_desc_pairs (l : List (SummaryRow × Nat))
    (h : l.Pairwise (fun a b => a.2 < b.2)) :
    List.insertionSort (fun a b => b.2 ≤ a.2) l = l.reverse :=
  insertionSort_desc_of_strictAsc (fun p => p.2) l h

theorem keyed_base_keys (inflow : List InflowDated) (release : List ReleaseDated) :
    (keyed_base inflow release).map (·.2)
      = (all_year_months inflow release).map (fun s => keyOfS s) := by
  unfold keyed_base summary_base
  simp only [List.map_map]
  rfl

theorem asc_sorted_perm (inflow : List InflowDated) (release : List ReleaseDated) :
    List.Perm (asc_sorted inflow release) (keyed_base inflow release) :=
  List.perm_insertionSort _ _

theorem asc_sorted_le (inflow : List InflowDated) (release : List ReleaseDated) :
    (asc_sorted inflow release).Pairwise (fun a b => a.2 ≤ b.2) := by
  haveI : IsTotal (SummaryRow × Nat) (fun a b => a.2 ≤ b.2) := ⟨fun a b => Nat.le_total a.2 b.2⟩
  haveI : IsTrans (SummaryRow × Nat) (fun a b => a.2 ≤ b.2) :=
    ⟨fun a b c h1 h2 => Nat.le_trans h1 h2⟩
  exact List.sorted_insertionSort _ _

theorem asc_keys_nodup (inflow : List InflowDated) (release : List ReleaseDated)
    (hvi : ValidInflow inflow) (hvr : ValidRelease release) :
    ((asc_sorted inflow release).map (·.2)).Nodup := by
  have hall := all_year_months_valid inflow release hvi hvr
  refine (((asc_sorted_perm inflow release).map (·.2)).nodup_iff).mpr ?_
  rw [keyed_base_keys]
  refine List.Nodup.map_on ?_ (nodup_all_year_months inflow release)
  intro x hx y hy hxy
  obtain ⟨kx, hkx⟩ := Option.isSome_iff_exists.mp (validYmB_isSome x (hall x hx))
  obtain ⟨ky, hky⟩ := Option.isSome_iff_exists.mp (validYmB_isSome y (hall y hy))
  have hk : kx = ky := by simpa [keyOfS, hkx, hky] using hxy
  exact validYm_inj x y kx (hall x hx) (hall y hy) hkx (hk ▸ hky)

theorem asc_sorted_strict (inflow : List InflowDated) (release : List ReleaseDated)
    (hvi : ValidInflow inflow) (hvr : ValidRelease release) :
    (asc_sorted inflow release).Pairwise (fun a b => a.2 < b.2) := by
  have hne : (asc_sorted inflow release).Pairwise (fun a b => a.2 ≠ b.2) := by
    have h := asc_keys_nodup inflow release hvi hvr
    rw [List.Nodup, List.pairwise_map] at h
    exact h
  exact ((asc_sorted_le inflow release).and hne).imp (fun h => lt_of_le_of_ne h.1 h.2)

theorem walked_rows_strict (inflow : List InflowDated) (release : List ReleaseDated)
    (hvi : ValidInflow inflow) (hvr : ValidRelease release) :
    (walked_rows inflow release).Pairwise (fun a b => a.2 < b.2) := by
  have hk : (walked_rows inflow release).map (·.2) = (asc_sorted inflow release).map (·.2) :=
    walk_keys 0 0 0 _
  have h1 : ((asc_sorted inflow release).map (·.2)).Pairwise (· < ·) :=
    List.pairwise_map.mpr (asc_sorted_strict inflow release hvi hvr)
  have h2 : ((walked_rows inflow release).map (·.2)).Pairwise (· < ·) := hk ▸ h1
  exact List.pairwise_map.mp h2

theorem create_eq_of_valid (inflow : List InflowDated) (release : List ReleaseDated)
    (hvi : ValidInflow inflow) (hvr : ValidRelease release) :
    create_summary_df inflow release =
      .ok ((walked_rows inflow release).reverse.map
        (fun p => { p.1 with year_month := renderYYYYMM p.2 })) := by
  have hall := all_year_months_valid inflow release hvi hvr
  have hbase : ∀ p ∈ summary_base inflow release, validYmB p.year_month = true := by
    intro p hp
    obtain ⟨s, hs, rfl⟩ := List.mem_map.mp hp
    exact hall s hs
  have hkeys := keyRows_ok (summary_base inflow release)
    (fun p hp => validYmB_isSome _ (hbase p hp))
  unfold create_summary_df
  rw [hkeys]
  show Except.ok
      ((List.insertionSort (fun a b => b.2 ≤ a.2) (walked_rows inflow release)).map
        (fun p => { p.1 with year_month := renderYYYYMM p.2 })) = _
  rw [insertionSort_desc_pairs _ (walked_rows_strict inflow release hvi hvr)]

theorem walked_src_valid (inflow : List InflowDated) (release : List ReleaseDated)
    (hvi : ValidInflow inflow) (hvr : ValidRelease release) :
    ∀ q ∈ walked_rows inflow release, ∃ s,
      validYmB s = true ∧ s ∈ all_year_months inflow release ∧ parseYM s = some q.2 ∧
      q.1.year_month = s ∧
      q.1.total_chicken_inflow_quantity = chicken_inflow_quantity_sum inflow s ∧
      q.1.total_chicken_inflow_weight = chicken_inflow_weight_sum inflow s ∧
      q.1.total_chicken_release_quantity = chicken_release_quantity_sum release s ∧
      q.1.total_chicken_release_weight = chicken_release_weight_sum release s ∧
      q.1.total_gizzard_inflow_weight = gizzard_inflow_weight_sum inflow s ∧
      q.1.total_gizzard_release_weight = gizzard_release_weight_sum release s := by
  intro q hq
  have hall := all_year_months_valid inflow release hvi hvr
  obtain ⟨p, hp, hkey, hym, hmon, ht1, ht2, ht3, ht4, ht5, ht6⟩ :=
    walk_src 0 0 0 (asc_sorted inflow release) q hq
  have hp' : p ∈ keyed_base inflow release := (asc_sorted_perm inflow release).mem_iff.mp hp
  obtain ⟨p0, hp0, rfl⟩ := List.mem_map.mp hp'
  obtain ⟨s, hs, rfl⟩ := List.mem_map.mp hp0
  obtain ⟨k, hk⟩ := Option.isSome_iff_exists.mp (validYmB_isSome s (hall s hs))
  refine ⟨s, hall s hs, hs, ?_, hym, ht1, ht2, ht3, ht4, ht5, ht6⟩
  rw [hkey]
  show parseYM s = some (keyOfS s)
  simp [keyOfS, hk]

theorem walked_parse_render (inflow : List InflowDated) (release : List ReleaseDated)
    (hvi : ValidInflow inflow) (hvr : ValidRelease release) :
    ∀ q ∈ walked_rows inflow release, parseYYYYMM (renderYYYYMM q.2) = some q.2 := by
  intro q hq
  obtain ⟨s, _, _, hp, _⟩ := walked_src_valid inflow release hvi hvr q hq
  obtain ⟨b1, b2, b3⟩ := parseYM_bounds s q.2 hp
  exact parseYYYYMM_render q.2 b1 b2 b3

theorem walked_keys_mem (inflow : List InflowDated) (release : List ReleaseDated) (k : Nat) :
    (∃ q ∈ walked_rows inflow release, q.2 = k) ↔
      ∃ s ∈ all_year_months inflow release, keyOfS s = k := by
  have h1 : (∃ q ∈ walked_rows inflow release, q.2 = k) ↔
      k ∈ (walked_rows inflow release).map (·.2) := by
    simp [List.mem_map]
  have h2 : (walked_rows inflow release).map (·.2) = (asc_sorted inflow release).map (·.2) :=
    walk_keys 0 0 0 _
  rw [h1, h2, ((asc_sorted_perm inflow release).map (·.2)).mem_iff, keyed_base_keys,
    List.mem_map]

/-- C2: additive consistency.  In every row of the summary returned by
`create_summary_df`, each of the three stock balances equals the matching
opening stock plus that month's total inflow minus that month's total
release. -/
theorem c2_additive_consistency (inflow : List InflowDated) (release : List ReleaseDated)
    (out : List SummaryRow) (ho : create_summary_df inflow release = .ok out) :
    ∀ r ∈ out,
      r.chicken_quantity_stock_balance
          = r.chicken_quantity_opening_stock + r.total_chicken_inflow_quantity
            - r.total_chicken_release_quantity ∧
      r.chicken_weight_stock_balance
          = r.chicken_weight_opening_stock + r.total_chicken_inflow_weight
            - r.total_chicken_release_weight ∧
      r.gizzard_weight_stock_balance
          = r.gizzard_weight_opening_stock + r.total_gizzard_inflow_weight
            - r.total_gizzard_release_weight := by
  intro r hr
  unfold create_summary_df at ho
  split at ho
  · simp at ho
  · rename_i keyed hkeyed
    simp only [Except.ok.injEq] at ho
    subst ho
    obtain ⟨q, hq, rfl⟩ := List.mem_map.mp hr
    have hq' : q ∈ walk 0 0 0 (List.insertionSort (fun a b => a.2 ≤ b.2) keyed) :=
      (List.perm_insertionSort _ _).mem_iff.mp hq
    exact walk_balance 0 0 0 _ q hq'

theorem c2_witness :
    create_summary_df sampleInflow sampleRelease = .ok sampleSummary ∧
    ((100 : Q) = 0 + 100 - 0 ∧ (150 : Q) = 0 + 150 - 0 ∧ (0 : Q) = 0 + 0 - 0) := by
  have hok : create_summary_df sampleInflow sampleRelease = .ok sampleSummary := by
    with_unfolding_all rfl
  have h := c2_additive_consistency sampleInflow sampleRelease sampleSummary hok
    sampleJanRow (by simp [sampleSummary])
  exact ⟨hok, h⟩

/-- C1: balance continuity.  Taking the rows of the summary returned by
`create_summary_df` in ascending true calendar order of their month — the
reverse of the emitted order, which the first conjunct proves is strictly
ascending by calendar bucket — the first row opens at 0 for all three
tracked quantities and every later row opens at the previous row's
balances. -/
theorem c1_balance_continuity (inflow : List InflowDated) (release : List ReleaseDated)
    (out : List SummaryRow) (hvi : ValidInflow inflow) (hvr : ValidRelease release)
    (ho : create_summary_df inflow release = .ok out) :
    out.reverse.Pairwise (fun a b => bucketNum a < bucketNum b) ∧
    (∀ r, out.reverse.head? = some r →
      r.chicken_quantity_opening_stock = 0 ∧ r.chicken_weight_opening_stock = 0 ∧
      r.gizzard_weight_opening_stock = 0) ∧
    (∀ i (h1 : i + 1 < out.reverse.length) (h0 : i < out.reverse.length),
      (out.reverse.get ⟨i + 1, h1⟩).chicken_quantity_opening_stock
          = (out.reverse.get ⟨i, h0⟩).chicken_quantity_stock_balance ∧
      (out.reverse.get ⟨i + 1, h1⟩).chicken_weight_opening_stock
          = (out.reverse.get ⟨i, h0⟩).chicken_weight_stock_balance ∧
      (out.reverse.get ⟨i + 1, h1⟩).gizzard_weight_opening_stock
          = (out.reverse.get ⟨i, h0⟩).gizzard_weight_stock_balance) := by
  have hmaster := create_eq_of_valid inflow release hvi hvr
  rw [ho] at hmaster
  have hout := Except.ok.inj hmaster
  subst hout
  have hrev : ((walked_rows inflow release).reverse.map
      (fun p => { p.1 with year_month := renderYYYYMM p.2 })).reverse
      = (walked_rows inflow release).map
        (fun p => { p.1 with year_month := renderYYYYMM p.2 }) := by
    rw [← List.map_reverse, List.reverse_reverse]
  rw [hrev]
  have hchain : ChainFrom 0 0 0 ((walked_rows inflow release).map
      (fun p => { p.1 with year_month := renderYYYYMM p.2 })) :=
    walk_chain (fun p => renderYYYYMM p.2) (asc_sorted inflow release) 0 0 0
  refine ⟨?_, ?_, ?_⟩
  · rw [List.pairwise_map]
    refine (walked_rows_strict inflow release hvi hvr).imp_of_mem ?_
    intro a b ha hb hab
    have hpa := walked_parse_render inflow release hvi hvr a ha
    have hpb := walked_parse_render inflow release hvi hvr b hb
    simpa [bucketNum, hpa, hpb] using hab
  · intro r hh
    cases hlist : (walked_rows inflow release).map
        (fun p => { p.1 with year_month := renderYYYYMM p.2 }) with
    | nil => rw [hlist] at hh; simp at hh
    | cons r0 rest =>
      rw [hlist] at hh hchain
      simp only [List.head?_cons, Option.some.injEq] at hh
      subst hh
      exact chainFrom_head _ _ _ _ _ hchain
  · intro i h1 h0
    exact chainFrom_get _ 0 0 0 hchain i h1 h0

theorem c1_witness :
    ValidInflow sampleInflow ∧ ValidRelease sampleRelease ∧
    (sampleSummary.reverse.get ⟨1, by decide⟩).chicken_quantity_opening_stock
        = (sampleSummary.reverse.get ⟨0, by decide⟩).chicken_quantity_stock_balance ∧
    (∀ r, sampleSummary.reverse.head? = some r →
      r.chicken_quantity_opening_stock = 0 ∧ r.chicken_weight_opening_stock = 0 ∧
      r.gizzard_weight_opening_stock = 0) := by
  have hvi : ValidInflow sampleInflow := by decide
  have hvr : ValidRelease sampleRelease := by decide
  have h := c1_balance_continuity sampleInflow sampleRelease sampleSummary hvi hvr
    (by with_unfolding_all rfl)
  exact ⟨hvi, hvr, (h.2.2 0 (by decide) (by decide)).1, h.2.1⟩

/-- C8: the summary returned by `create_summary_df` is sorted descending by
true calendar order of the month, and every `year_month` value in it has
the `YYYY-MM` shape — four digits, a dash, two digits — so the internal
`YYYY-MMM` bucket key, whose month part is letters, never appears. -/
theorem c8_output_order_and_rendering (inflow : List InflowDated) (release : List ReleaseDated)
    (out : List SummaryRow) (hvi : ValidInflow inflow) (hvr : ValidRelease release)
    (ho : create_summary_df inflow release = .ok out) :
    out.Pairwise (fun a b => bucketNum a > bucketNum b) ∧
    (∀ r ∈ out, isYYYYMM r.year_month = true) := by
  have hmaster := create_eq_of_valid inflow release hvi hvr
  rw [ho] at hmaster
  have hout := Except.ok.inj hmaster
  subst hout
  constructor
  · rw [List.pairwise_map, List.pairwise_reverse]
    refine (walked_rows_strict inflow release hvi hvr).imp_of_mem ?_
    intro a b ha hb hab
    have hpa := walked_parse_render inflow release hvi hvr a ha
    have hpb := walked_parse_render inflow release hvi hvr b hb
    simpa [bucketNum, hpa, hpb] using hab
  · intro r hr
    obtain ⟨q, hq, rfl⟩ := List.mem_map.mp hr
    exact isYYYYMM_render q.2

theorem c8_witness :
    sampleSummary.Pairwise (fun a b => bucketNum a > bucketNum b) ∧
    sampleSummary.map (fun r => isYYYYMM r.year_month) = [true, true] :=
  ⟨(c8_output_order_and_rendering sampleInflow sampleRelease sampleSummary (by decide) (by decide)
      (by with_unfolding_all rfl)).1, by decide⟩

theorem zero_chicken_inflow (inflow : List InflowDated) (s : String) (k : Nat)
    (hp : parseYM s = some k)
    (hnone : ∀ ri ∈ inflow,
      ¬(ri.product_type = PRODUCT_WHOLE_CHICKEN ∧ parseYM ri.year_month = some k)) :
    chicken_inflow_quantity_sum inflow s = 0 ∧ chicken_inflow_weight_sum inflow s = 0 := by
  have hfil : inflow.filter
      (fun r => r.product_type == PRODUCT_WHOLE_CHICKEN && r.year_month == s) = [] := by
    rw [List.filter_eq_nil_iff]
    intro a ha hcontra
    simp only [Bool.and_eq_true, beq_iff_eq] at hcontra
    exact hnone a ha ⟨hcontra.1, hcontra.2 ▸ hp⟩
  constructor <;>
    simp [chicken_inflow_quantity_sum, chicken_inflow_weight_sum, hfil, sumQ]

theorem zero_chicken_release (release : List ReleaseDated) (s : String) (k : Nat)
    (hp : parseYM s = some k)
    (hnone : ∀ rr ∈ release,
      ¬(rr.product = PRODUCT_WHOLE_CHICKEN ∧ parseYM rr.year_month = some k)) :
    chicken_release_quantity_sum release s = 0 ∧ chicken_release_weight_sum release s = 0 := by
  have hfil : release.filter
      (fun r => r.product == PRODUCT_WHOLE_CHICKEN && r.year_month == s) = [] := by
    rw [List.filter_eq_nil_iff]
    intro a ha hcontra
    simp only [Bool.and_eq_true, beq_iff_eq] at hcontra
    exact hnone a ha ⟨hcontra.1, hcontra.2 ▸ hp⟩
  constructor <;>
    simp [chicken_release_quantity_sum, chicken_release_weight_sum, hfil, sumQ]

theorem zero_gizzard_inflow (inflow : List InflowDated) (s : String) (k : Nat)
    (hp : parseYM s = some k)
    (hnone : ∀ ri ∈ inflow,
      ¬(ri.product_type = PRODUCT_GIZZARD ∧ parseYM ri.year_month = some k)) :
    gizzard_inflow_weight_sum inflow s = 0 := by
  have hfil : inflow.filter
      (fun r => r.product_type == PRODUCT_GIZZARD && r.year_month == s) = [] := by
    rw [List.filter_eq_nil_iff]
    intro a ha hcontra
    simp only [Bool.and_eq_true, beq_iff_eq] at hcontra
    exact hnone a ha ⟨hcontra.1, hcontra.2 ▸ hp⟩
  simp [gizzard_inflow_weight_sum, hfil, sumQ]

theorem zero_gizzard_release (release : List ReleaseDated) (s : String) (k : Nat)
    (hp : parseYM s = some k)
    (hnone : ∀ rr ∈ release,
      ¬(rr.product = PRODUCT_GIZZARD ∧ parseYM rr.year_month = some k)) :
    gizzard_release_weight_sum release s = 0 := by
  have hfil : release.filter
      (fun r => r.product == PRODUCT_GIZZARD && r.year_month == s) = [] := by
    rw [List.filter_eq_nil_iff]
    intro a ha hcontra
    simp only [Bool.and_eq_true, beq_iff_eq] at hcontra
    exact hnone a ha ⟨hcontra.1, hcontra.2 ▸ hp⟩
  simp [gizzard_release_weight_sum, hfil, sumQ]

/-- C3: month-union completeness.  The calendar buckets of the summary
returned by `create_summary_df` are exactly the buckets occurring in
either normalized ledger — the correspondence is at the bucket level
because the summary re-renders its `year_month` key in `YYYY-MM` form
while the ledgers carry the internal `YYYY-MMM` form — and a summary row
whose month has no records for a given (ledger, product) aggregate
carries the value 0, an actual zero rather than a missing value, in the
corresponding `total_*` columns. -/
theorem c3_month_union_completeness (inflow : List InflowDated) (release : List ReleaseDated)
    (out : List SummaryRow) (hvi : ValidInflow inflow) (hvr : ValidRelease release)
    (ho : create_summary_df inflow release = .ok out) :
    (∀ k, (∃ r ∈ out, bucketNum r = k) ↔
      ((∃ ri ∈ inflow, parseYM ri.year_month = some k) ∨
       (∃ rr ∈ release, parseYM rr.year_month = some k))) ∧
    (∀ r ∈ out,
      ((∀ ri ∈ inflow, ¬(ri.product_type = PRODUCT_WHOLE_CHICKEN ∧
            parseYM ri.year_month = some (bucketNum r))) →
        r.total_chicken_inflow_quantity = 0 ∧ r.total_chicken_inflow_weight = 0) ∧
      ((∀ rr ∈ release, ¬(rr.product = PRODUCT_WHOLE_CHICKEN ∧
            parseYM rr.year_month = some (bucketNum r))) →
        r.total_chicken_release_quantity = 0 ∧ r.total_chicken_release_weight = 0) ∧
      ((∀ ri ∈ inflow, ¬(ri.product_type = PRODUCT_GIZZARD ∧
            parseYM ri.year_month = some (bucketNum r))) →
        r.total_gizzard_inflow_weight = 0) ∧
      ((∀ rr ∈ release, ¬(rr.product = PRODUCT_GIZZARD ∧
            parseYM rr.year_month = some (bucketNum r))) →
        r.total_gizzard_release_weight = 0)) := by
  have hall := all_year_months_valid inflow release hvi hvr
  have hmaster := create_eq_of_valid inflow release hvi hvr
  rw [ho] at hmaster
  have hout := Except.ok.inj hmaster
  subst hout
  constructor
  · intro k
    constructor
    · rintro ⟨r, hr, rfl⟩
      obtain ⟨q, hq, rfl⟩ := List.mem_map.mp hr
      have hq' : q ∈ walked_rows inflow release := List.mem_reverse.mp hq
      obtain ⟨s, hv, hs, hp, _⟩ := walked_src_valid inflow release hvi hvr q hq'
      have hb : bucketNum { q.1 with year_month := renderYYYYMM q.2 } = q.2 := by
        simp [bucketNum, walked_parse_render inflow release hvi hvr q hq']
      rw [hb]
      rcases (mem_all_year_months_iff inflow release s).mp hs with ⟨ri, hri, rfl⟩ | ⟨rr, hrr, rfl⟩
      · exact Or.inl ⟨ri, hri, hp⟩
      · exact Or.inr ⟨rr, hrr, hp⟩
    · intro h
      have hsk : ∃ s ∈ all_year_months inflow release, keyOfS s = k := by
        rcases h with ⟨ri, hri, hp⟩ | ⟨rr, hrr, hp⟩
        · exact ⟨ri.year_month, (mem_all_year_months_iff _ _ _).mpr (Or.inl ⟨ri, hri, rfl⟩),
            by simp [keyOfS, hp]⟩
        · exact ⟨rr.year_month, (mem_all_year_months_iff _ _ _).mpr (Or.inr ⟨rr, hrr, rfl⟩),
            by simp [keyOfS, hp]⟩
      obtain ⟨q, hq, hqk⟩ := (walked_keys_mem inflow release k).mpr hsk
      refine ⟨{ q.1 with year_month := renderYYYYMM q.2 },
        List.mem_map.mpr ⟨q, List.mem_reverse.mpr hq, rfl⟩, ?_⟩
      have hpr := walked_parse_render inflow release hvi hvr q hq
      rw [← hqk]
      simp [bucketNum, hpr]
  · intro r hr
    obtain ⟨q, hq, rfl⟩ := List.mem_map.mp hr
    have hq' : q ∈ walked_rows inflow release := List.mem_reverse.mp hq
    obtain ⟨s, hv, hs, hp, hym, ht1, ht2, ht3, ht4, ht5, ht6⟩ :=
      walked_src_valid inflow release hvi hvr q hq'
    have hb : bucketNum { q.1 with year_month := renderYYYYMM q.2 } = q.2 := by
      simp [bucketNum, walked_parse_render inflow release hvi hvr q hq']
    rw [hb]
    refine ⟨?_, ?_, ?_, ?_⟩
    · intro hnone
      have h0 := zero_chicken_inflow inflow s q.2 hp hnone
      exact ⟨ht1.trans h0.1, ht2.trans h0.2⟩
    · intro hnone
      have h0 := zero_chicken_release release s q.2 hp hnone
      exact ⟨ht3.trans h0.1, ht4.trans h0.2⟩
    · intro hnone
      exact ht5.trans (zero_gizzard_inflow inflow s q.2 hp hnone)
    · intro hnone
      exact ht6.trans (zero_gizzard_release release s q.2 hp hnone)

theorem c3_witness :
    (∃ r ∈ sampleSummary, bucketNum r = 202402) ∧
    (∃ r ∈ sampleSummary, bucketNum r = 202401) ∧
    sampleFebRow.total_chicken_inflow_quantity = 0 ∧
    sampleFebRow.total_chicken_inflow_weight = 0 := by
  have h := c3_month_union_completeness sampleInflow sampleRelease sampleSummary
    (by decide) (by decide) (by with_unfolding_all rfl)
  refine ⟨?_, ?_, ?_⟩
  · exact (h.1 202402).mpr (Or.inr ⟨sampleReleaseRecord, by simp [sampleRelease], by decide⟩)
  · exact (h.1 202401).mpr (Or.inl ⟨sampleInflowRecord, by simp [sampleInflow], by decide⟩)
  · exact (h.2 sampleFebRow (by simp [sampleSummary])).1 (by decide)

end NasarawaETL
